import Mathlib

/-!
# Verification of the LabAgentSkill core against its specification

Shallow embedding of the core functions of the LabAgentSkill repository
(`SkillAwareAgent.py`, `evaluate.py`, `skills_utils/skill_util.py`, and the
benchmark driver scripts), together with theorems settling the specification
claims about them.

Python strings are modelled as Lean `String`s (lists of characters); Python
`str` slicing, `in`, `strip`, `lower`, `startswith` are modelled by executable
helpers over `List Char`.
-/

/- ## Python string helpers -/

/-- `startsWithList p s` : `p` is a leading run of `s` (Python `s.startswith(p)`
restricted to character lists). -/
def startsWithList : List Char → List Char → Bool
  | [], _ => true
  | _ :: _, [] => false
  | a :: as, b :: bs => a == b && startsWithList as bs

/-- `containsList n h` : `n` occurs contiguously inside `h` (Python `n in h`). -/
def containsList (needle : List Char) : List Char → Bool
  | [] => needle.isEmpty
  | c :: rest => startsWithList needle (c :: rest) || containsList needle rest

/-- Python `needle in hay` on strings. -/
def pyContains (needle hay : String) : Bool :=
  containsList needle.data hay.data

/-- Python `s.startswith(p)` on strings. -/
def pyStartsWith (p s : String) : Bool :=
  startsWithList p.data s.data

/-- Python `str.strip()` whitespace set (ASCII): space, tab, newline, carriage
return, vertical tab, form feed. -/
def isPySpace (c : Char) : Bool :=
  c == ' ' || c == '\t' || c == '\n' || c == '\r' || c == '\x0b' || c == '\x0c'

/-- Python `s.strip()` : remove leading and trailing whitespace. -/
def pyStrip (s : String) : String :=
  ⟨((s.data.dropWhile isPySpace).reverse.dropWhile isPySpace).reverse⟩

/-- Python `s.lower()` (ASCII case folding, as used by every call site). -/
def pyLower (s : String) : String :=
  ⟨s.data.map Char.toLower⟩

/- ## Message Window Trimmer (`SkillAwareAgent.trim_messages`) -/

/-- `trim_messages` from `SkillAwareAgent.py`: conversations of length ≤ 3 are
returned unchanged (the middleware returns `None`); otherwise the outgoing list
is replaced by the first message followed by the last 3 messages when the total
count is even, the last 4 when odd.  Python `messages[-n:]` for a list of
length `L ≥ n` is `drop (L - n)`; `[first_msg]` is `take 1`. -/
def trim_messages (messages : List α) : List α :=
  if messages.length ≤ 3 then messages
  else
    messages.take 1 ++
      (if messages.length % 2 == 0 then messages.drop (messages.length - 3)
       else messages.drop (messages.length - 4))

theorem trim_messages_of_le_three (l : List α) (h : l.length ≤ 3) :
    trim_messages l = l := by
  simp [trim_messages, h]

theorem trim_messages_eq_of_gt_three (l : List α) (h : 3 < l.length) :
    trim_messages l =
      l.take 1 ++
        (if l.length % 2 == 0 then l.drop (l.length - 3) else l.drop (l.length - 4)) := by
  simp [trim_messages, Nat.not_le.mpr h]

/-- C3 helper: the length computation for the trimmed list. -/
theorem trim_messages_length (l : List α) (h : 3 < l.length) :
    (trim_messages l).length = if l.length % 2 = 0 then 4 else 5 := by
  rw [trim_messages_eq_of_gt_three l h]
  by_cases h2 : l.length % 2 = 0 <;>
    simp [h2, List.length_append, List.length_take, List.length_drop] <;> omega

/-- C3 helper: the head of the trimmed list is the original head. -/
theorem trim_messages_head (l : List α) (h : 3 < l.length) :
    (trim_messages l).head? = l.head? := by
  rw [trim_messages_eq_of_gt_three l h]
  match l, h with
  | a :: t, _ => simp

/-- **C3** — Message Window Trimmer shape: lists of length ≤ 3 are left
unchanged; for length L > 3 the output is the original first entry followed by
the last 3 entries (L even) or the last 4 entries (L odd), hence has length 4
respectively 5, and starts with the original first entry. -/
theorem trim_messages_window_shape (l : List Nat) :
    (l.length ≤ 3 → trim_messages l = l) ∧
    (3 < l.length →
      trim_messages l =
        l.take 1 ++
          (if l.length % 2 == 0 then l.drop (l.length - 3) else l.drop (l.length - 4)) ∧
      (trim_messages l).length = (if l.length % 2 = 0 then 4 else 5) ∧
      (trim_messages l).head? = l.head?) := by
  refine ⟨fun h => trim_messages_of_le_three l h, fun h => ⟨?_, ?_, ?_⟩⟩
  · exact trim_messages_eq_of_gt_three l h
  · exact trim_messages_length l h
  · exact trim_messages_head l h

/-- **C3 witness** — the trimmer evaluated on concrete short and long lists:
`[0,1,2]` is untouched; `[0,1,2,3,4,5]` (even length) trims to 4 entries
keeping the head; `[0,1,2,3,4]` (odd length) trims to 5 entries. -/
theorem trim_messages_window_shape_witness :
    trim_messages [0, 1, 2] = [0, 1, 2] ∧
    (trim_messages [0, 1, 2, 3, 4, 5]).length = 4 ∧
    (trim_messages [0, 1, 2, 3, 4, 5]).head? = some 0 ∧
    (trim_messages [0, 1, 2, 3, 4]).length = 5 := by
  refine ⟨(trim_messages_window_shape [0, 1, 2]).1 (by decide), ?_, ?_, ?_⟩
  · have h := ((trim_messages_window_shape [0, 1, 2, 3, 4, 5]).2 (by decide)).2.1
    simpa using h
  · have h := ((trim_messages_window_shape [0, 1, 2, 3, 4, 5]).2 (by decide)).2.2
    simpa using h
  · have h := ((trim_messages_window_shape [0, 1, 2, 3, 4]).2 (by decide)).2.1
    simpa using h

/-- **C10** — the Message Window Trimmer is idempotent: applying it to its own
output changes nothing, so trimming before every model call never erodes the
window beyond a single trim. -/
theorem trim_messages_idempotent (l : List Nat) :
    trim_messages (trim_messages l) = trim_messages l := by
  by_cases h : l.length ≤ 3
  · simp [trim_messages_of_le_three l h]
  · push_neg at h
    have hlen := trim_messages_length l h
    rcases Nat.even_or_odd l.length with he | ho
    · have h2 : l.length % 2 = 0 := Nat.even_iff.mp he
      have h4 : (trim_messages l).length = 4 := by rw [hlen]; simp [h2]
      obtain ⟨a, t, ht⟩ : ∃ a t, trim_messages l = a :: t ∧ t.length = 3 := by
        match htm : trim_messages l, h4 with
        | a :: t, h4 => exact ⟨a, t, rfl, by simpa using h4⟩
      obtain ⟨x, y, z, hxyz⟩ := List.length_eq_three.mp ht.2
      rw [ht.1, hxyz]
      simp [trim_messages]
    · have h2 : l.length % 2 = 1 := Nat.odd_iff.mp ho
      have h5 : (trim_messages l).length = 5 := by rw [hlen]; simp [h2]
      obtain ⟨a, t, ht⟩ : ∃ a t, trim_messages l = a :: t ∧ t.length = 4 := by
        match htm : trim_messages l, h5 with
        | a :: t, h5 => exact ⟨a, t, rfl, by simpa using h5⟩
      obtain ⟨w, t2, ht2⟩ : ∃ w t2, t = w :: t2 ∧ t2.length = 3 := by
        match ht2 : t, ht.2 with
        | w :: t2, h => exact ⟨w, t2, rfl, by simpa using h⟩
      obtain ⟨x, y, z, hxyz⟩ := List.length_eq_three.mp ht2.2
      rw [ht.1, ht2.1, hxyz]
      simp [trim_messages]

/- ## Relating `startswith` and `in` -/

theorem containsList_of_startsWithList {p s : List Char} (h : startsWithList p s = true) :
    containsList p s = true := by
  cases s with
  | nil =>
    cases p with
    | nil => rfl
    | cons a as => simp [startsWithList] at h
  | cons c rest => simp [containsList, h]

theorem not_startsWith_of_not_contains {p s : String} (h : pyContains p s = false) :
    pyStartsWith p s = false := by
  by_contra hq
  rw [Bool.not_eq_false] at hq
  have hc := containsList_of_startsWithList (show startsWithList p.data s.data = true from hq)
  simp [pyContains, hc] at h

/- ## Binary sentiment extractor (`evaluate.get_predicted_label`) -/

/-- `get_predicted_label` from `evaluate.py`: normalize (strip + lowercase);
"positive" without "negative" → "positive"; "negative" without "positive" →
"negative"; both present → whichever the normalized text starts with;
otherwise "unknown".  (`message_classification or ""` only handles `None`,
which has no counterpart for a `String` input.) -/
def get_predicted_label (message_classification : String) : String :=
  let msg_lower := pyLower (pyStrip message_classification)
  if pyContains "positive" msg_lower && !(pyContains "negative" msg_lower) then "positive"
  else if pyContains "negative" msg_lower && !(pyContains "positive" msg_lower) then "negative"
  else if pyStartsWith "positive" msg_lower then "positive"
  else if pyStartsWith "negative" msg_lower then "negative"
  else "unknown"

/-- **C6 counterexample** — the input `"This is not negative, it is positive
overall"` contains both keywords and starts with neither, so the extractor
returns `"unknown"`, not `"positive"` as the claim's concrete example states. -/
theorem get_predicted_label_example_refuted :
    get_predicted_label "This is not negative, it is positive overall" = "unknown" ∧
    ("unknown" : String) ≠ "positive" := by
  exact ⟨by decide, by decide⟩

/-- **C6 (amended)** — the extractor's rules on the normalized (stripped,
lowercased) text: exactly one keyword present → that keyword; both present →
whichever the normalized text starts with ("unknown" if it starts with
neither); neither present → "unknown".  The claim's concrete example contains
both keywords and starts with neither, so it yields "unknown". -/
theorem get_predicted_label_rules (m : String) :
    (pyContains "positive" (pyLower (pyStrip m)) = true ∧
        pyContains "negative" (pyLower (pyStrip m)) = false →
      get_predicted_label m = "positive") ∧
    (pyContains "negative" (pyLower (pyStrip m)) = true ∧
        pyContains "positive" (pyLower (pyStrip m)) = false →
      get_predicted_label m = "negative") ∧
    (pyContains "positive" (pyLower (pyStrip m)) = true ∧
        pyContains "negative" (pyLower (pyStrip m)) = true →
      (pyStartsWith "positive" (pyLower (pyStrip m)) = true →
        get_predicted_label m = "positive") ∧
      (pyStartsWith "positive" (pyLower (pyStrip m)) = false ∧
          pyStartsWith "negative" (pyLower (pyStrip m)) = true →
        get_predicted_label m = "negative") ∧
      (pyStartsWith "positive" (pyLower (pyStrip m)) = false ∧
          pyStartsWith "negative" (pyLower (pyStrip m)) = false →
        get_predicted_label m = "unknown")) ∧
    (pyContains "positive" (pyLower (pyStrip m)) = false ∧
        pyContains "negative" (pyLower (pyStrip m)) = false →
      get_predicted_label m = "unknown") ∧
    get_predicted_label "This is not negative, it is positive overall" = "unknown" := by
  refine ⟨?_, ?_, ?_, ?_, by decide⟩
  · rintro ⟨h1, h2⟩
    simp [get_predicted_label, h1, h2]
  · rintro ⟨h1, h2⟩
    simp [get_predicted_label, h1, h2]
  · rintro ⟨h1, h2⟩
    refine ⟨?_, ?_, ?_⟩
    · intro hs
      simp [get_predicted_label, h1, h2, hs]
    · rintro ⟨hs1, hs2⟩
      simp [get_predicted_label, h1, h2, hs1, hs2]
    · rintro ⟨hs1, hs2⟩
      simp [get_predicted_label, h1, h2, hs1, hs2]
  · rintro ⟨h1, h2⟩
    have hs1 := not_startsWith_of_not_contains h1
    have hs2 := not_startsWith_of_not_contains h2
    simp [get_predicted_label, h1, h2, hs1, hs2]

/-- **C6 witness** — the amended rules applied at concrete inputs: a text with
only "positive", a text with both keywords starting with "positive", and a
text with neither keyword. -/
theorem get_predicted_label_rules_witness :
    get_predicted_label "clearly positive overall" = "positive" ∧
    get_predicted_label "positive, though some say negative" = "positive" ∧
    get_predicted_label "no sentiment here" = "unknown" := by
  refine ⟨?_, ?_, ?_⟩
  · exact (get_predicted_label_rules "clearly positive overall").1 (by decide)
  · exact ((get_predicted_label_rules "positive, though some say negative").2.2.1
      (by decide)).1 (by decide)
  · exact (get_predicted_label_rules "no sentiment here").2.2.2.1 (by decide)

/- ## Yes/No matcher (`evaluate.get_insurBench_predicted_label`) -/

/-- Python regex `\w` (ASCII fragment: letters, digits, underscore; the call
sites only match the ASCII words "yes"/"no", for which this is exact). -/
def isWordChar (c : Char) : Bool := c.isAlphanum || c == '_'

/-- Case-insensitive character comparison (`re.IGNORECASE`, ASCII). -/
def lowerEq (a b : Char) : Bool := a.toLower == b.toLower

/-- `matchWordHere w t` : the pattern `w` matches (case-insensitively) at the
start of `t`, followed by a word boundary (`\b` after the pattern: end of text
or a non-word character). -/
def matchWordHere : List Char → List Char → Bool
  | [], [] => true
  | [], c :: _ => !isWordChar c
  | _ :: _, [] => false
  | a :: as, b :: bs => lowerEq a b && matchWordHere as bs

/-- Scan `s` for a whole-word occurrence of `w`; `prev` records whether the
character just before the current position is a word character (`\b` before
the pattern: start of text or a non-word predecessor). -/
def searchWordFrom (w : List Char) : Bool → List Char → Bool
  | _, [] => false
  | prev, c :: rest =>
    (!prev && matchWordHere w (c :: rest)) || searchWordFrom w (isWordChar c) rest

/-- `re.compile(r"\bWORD\b", re.IGNORECASE).search(s) is not None`, for a
pattern `WORD` made of word characters. -/
def searchWord (w s : List Char) : Bool :=
  searchWordFrom w false s

/-- `get_insurBench_predicted_label` from `evaluate.py`: on the stripped text,
whole-word case-insensitive "yes" → "YES"; else whole-word "no" → "NO"; else
"unknown". -/
def get_insurBench_predicted_label (message_classification : String) : String :=
  let s := pyStrip message_classification
  if searchWord "yes".data s.data then "YES"
  else if searchWord "no".data s.data then "NO"
  else "unknown"

/-- Declarative reading of a whole-word occurrence: `s` splits as
`pre ++ m ++ post` where `m` matches `w` up to (ASCII) case, the character
before `m` (if any) is not a word character, and neither is the one after. -/
def HasWholeWord (w s : List Char) : Prop :=
  ∃ pre m post, s = pre ++ m ++ post ∧
    m.map Char.toLower = w.map Char.toLower ∧
    (pre = [] ∨ ∃ c, pre.getLast? = some c ∧ isWordChar c = false) ∧
    (post = [] ∨ ∃ c, post.head? = some c ∧ isWordChar c = false)

theorem matchWordHere_iff (w t : List Char) :
    matchWordHere w t = true ↔
      ∃ m post, t = m ++ post ∧ m.map Char.toLower = w.map Char.toLower ∧
        (post = [] ∨ ∃ c, post.head? = some c ∧ isWordChar c = false) := by
  induction w generalizing t with
  | nil =>
    cases t with
    | nil =>
      simp only [matchWordHere, true_iff]
      exact ⟨[], [], rfl, rfl, Or.inl rfl⟩
    | cons c rest =>
      simp only [matchWordHere, Bool.not_eq_true']
      constructor
      · intro h
        exact ⟨[], c :: rest, rfl, rfl, Or.inr ⟨c, rfl, h⟩⟩
      · rintro ⟨m, post, hsplit, hmap, hpost⟩
        have hm : m = [] := by
          cases m with
          | nil => rfl
          | cons x xs => simp at hmap
        subst hm
        simp only [List.nil_append] at hsplit
        subst hsplit
        rcases hpost with h | ⟨d, hd, hdw⟩
        · simp at h
        · simp only [List.head?_cons, Option.some.injEq] at hd
          subst hd
          exact hdw
  | cons a as ih =>
    cases t with
    | nil =>
      simp only [matchWordHere, Bool.false_eq_true, false_iff]
      rintro ⟨m, post, hsplit, hmap, -⟩
      have h0 : m ++ post = [] := hsplit.symm
      simp only [List.append_eq_nil] at h0
      obtain ⟨hm, -⟩ := h0
      subst hm
      simp at hmap
    | cons b bs =>
      simp only [matchWordHere, Bool.and_eq_true]
      constructor
      · rintro ⟨hab, hrest⟩
        obtain ⟨m, post, hsplit, hmap, hpost⟩ := (ih bs).mp hrest
        refine ⟨b :: m, post, by simp [hsplit], ?_, hpost⟩
        have hab' : a.toLower = b.toLower := by simpa [lowerEq] using hab
        simp [hmap, hab']
      · rintro ⟨m, post, hsplit, hmap, hpost⟩
        cases m with
        | nil => simp at hmap
        | cons x ms =>
          simp only [List.cons_append, List.cons.injEq] at hsplit
          obtain ⟨hx, hbs⟩ := hsplit
          subst hx
          simp only [List.map_cons, List.cons.injEq] at hmap
          refine ⟨by simp [lowerEq, hmap.1], ?_⟩
          exact (ih bs).mpr ⟨ms, post, hbs, hmap.2, hpost⟩

theorem searchWordFrom_iff (w : List Char) (hw : w ≠ []) (s : List Char) :
    ∀ prev : Bool,
      searchWordFrom w prev s = true ↔
        ∃ pre m post, s = pre ++ m ++ post ∧
          m.map Char.toLower = w.map Char.toLower ∧
          ((pre = [] ∧ prev = false) ∨ ∃ c, pre.getLast? = some c ∧ isWordChar c = false) ∧
          (post = [] ∨ ∃ c, post.head? = some c ∧ isWordChar c = false) := by
  induction s with
  | nil =>
    intro prev
    simp only [searchWordFrom, Bool.false_eq_true, false_iff]
    rintro ⟨pre, m, post, hsplit, hmap, -, -⟩
    have h0 : pre ++ (m ++ post) = [] := by simpa using hsplit.symm
    simp only [List.append_eq_nil] at h0
    obtain ⟨-, hm, -⟩ := h0
    subst hm
    apply hw
    have h1 : List.map Char.toLower w = [] := hmap.symm
    simpa using h1
  | cons c rest ih =>
    intro prev
    simp only [searchWordFrom, Bool.or_eq_true, Bool.and_eq_true, Bool.not_eq_true']
    constructor
    · rintro (⟨hprev, hm⟩ | hrest)
      · obtain ⟨m, post, hsplit, hmap, hpost⟩ := (matchWordHere_iff w (c :: rest)).mp hm
        exact ⟨[], m, post, by simpa using hsplit, hmap, Or.inl ⟨rfl, hprev⟩, hpost⟩
      · obtain ⟨pre, m, post, hsplit, hmap, hleft, hpost⟩ := (ih (isWordChar c)).mp hrest
        refine ⟨c :: pre, m, post, by simp [hsplit], hmap, ?_, hpost⟩
        rcases hleft with ⟨hpre, hcw⟩ | ⟨d, hd, hdw⟩
        · subst hpre
          exact Or.inr ⟨c, rfl, hcw⟩
        · cases pre with
          | nil => simp at hd
          | cons x xs =>
            exact Or.inr ⟨d, by rw [List.getLast?_cons_cons]; exact hd, hdw⟩
    · rintro ⟨pre, m, post, hsplit, hmap, hleft, hpost⟩
      cases pre with
      | nil =>
        simp only [List.nil_append] at hsplit
        rcases hleft with ⟨-, hprev⟩ | ⟨d, hd, -⟩
        · exact Or.inl ⟨hprev,
            (matchWordHere_iff w (c :: rest)).mpr ⟨m, post, hsplit, hmap, hpost⟩⟩
        · simp at hd
      | cons e pre' =>
        simp only [List.cons_append, List.cons.injEq] at hsplit
        obtain ⟨he, hrest'⟩ := hsplit
        subst he
        refine Or.inr ((ih (isWordChar c)).mpr ⟨pre', m, post, hrest', hmap, ?_, hpost⟩)
        rcases hleft with ⟨hpre, -⟩ | ⟨d, hd, hdw⟩
        · simp at hpre
        · cases pre' with
          | nil =>
            simp only [List.getLast?_singleton, Option.some.injEq] at hd
            subst hd
            exact Or.inl ⟨rfl, hdw⟩
          | cons x xs =>
            rw [List.getLast?_cons_cons] at hd
            exact Or.inr ⟨d, hd, hdw⟩

/-- The scanner decides exactly the declarative whole-word property. -/
theorem searchWord_iff (w s : List Char) (hw : w ≠ []) :
    searchWord w s = true ↔ HasWholeWord w s := by
  rw [searchWord, searchWordFrom_iff w hw s false, HasWholeWord]
  constructor
  · rintro ⟨pre, m, post, hsplit, hmap, hleft, hpost⟩
    refine ⟨pre, m, post, hsplit, hmap, ?_, hpost⟩
    rcases hleft with ⟨hpre, -⟩ | h
    · exact Or.inl hpre
    · exact Or.inr h
  · rintro ⟨pre, m, post, hsplit, hmap, hleft, hpost⟩
    refine ⟨pre, m, post, hsplit, hmap, ?_, hpost⟩
    rcases hleft with hpre | h
    · exact Or.inl ⟨hpre, rfl⟩
    · exact Or.inr h

/- ## Whole-word presence is invariant under stripping -/

theorem isWordChar_eq_false_of_isPySpace {c : Char} (h : isPySpace c = true) :
    isWordChar c = false := by
  simp only [isPySpace, Bool.or_eq_true, beq_iff_eq] at h
  rcases h with ((((h | h) | h) | h) | h) | h <;> subst h <;> decide

theorem toLower_eq_self_of_isPySpace {c : Char} (h : isPySpace c = true) :
    c.toLower = c := by
  simp only [isPySpace, Bool.or_eq_true, beq_iff_eq] at h
  rcases h with ((((h | h) | h) | h) | h) | h <;> subst h <;> decide

/-- If `m` matches `w` up to case and no letter of `w` lowercases into the
whitespace set, then `m` contains no whitespace. -/
theorem not_space_of_lowerMatch {w m : List Char}
    (hws : ∀ d ∈ w, isPySpace d.toLower = false)
    (hm : m.map Char.toLower = w.map Char.toLower) :
    ∀ c ∈ m, isPySpace c = false := by
  induction m generalizing w with
  | nil => intro c hc; cases hc
  | cons x ms ih =>
    cases w with
    | nil => simp at hm
    | cons d w' =>
      simp only [List.map_cons, List.cons.injEq] at hm
      intro c hc
      rcases List.mem_cons.mp hc with hcx | hcm
      · subst hcx
        by_contra hsp
        rw [Bool.not_eq_false] at hsp
        have h1 : c.toLower = c := toLower_eq_self_of_isPySpace hsp
        have h2 : isPySpace d.toLower = false := hws d (List.mem_cons_self d w')
        rw [hm.1] at h1
        rw [← h1] at hsp
        rw [hsp] at h2
        cases h2
      · exact ih (fun e he => hws e (List.mem_cons_of_mem d he)) hm.2 c hcm

/-- Prepending whitespace does not change whole-word presence. -/
theorem hasWholeWord_append_left {w a t : List Char} (hw : w ≠ [])
    (hws : ∀ d ∈ w, isPySpace d.toLower = false)
    (ha : ∀ c ∈ a, isPySpace c = true) :
    HasWholeWord w (a ++ t) ↔ HasWholeWord w t := by
  constructor
  · rintro ⟨pre, m, post, hsplit, hmap, hleft, hpost⟩
    rw [List.append_assoc] at hsplit
    rcases List.append_eq_append_iff.mp hsplit with ⟨a', hpre, ht⟩ | ⟨c', hac, hmp⟩
    · refine ⟨a', m, post, by rw [List.append_assoc]; exact ht, hmap, ?_, hpost⟩
      cases a' with
      | nil => exact Or.inl rfl
      | cons y ys =>
        rcases hleft with hnil | ⟨d, hd, hdw⟩
        · rw [hnil] at hpre; simp at hpre
        · rw [show pre = a ++ y :: ys from hpre] at hd
          rw [List.getLast?_append_of_ne_nil a (by simp)] at hd
          exact Or.inr ⟨d, hd, hdw⟩
    · cases c' with
      | nil =>
        simp only [List.append_nil] at hac
        simp only [List.nil_append] at hmp
        exact ⟨[], m, post, by simpa using hmp.symm, hmap, Or.inl rfl, hpost⟩
      | cons x c'' =>
        exfalso
        cases m with
        | nil =>
          apply hw
          have h1 : List.map Char.toLower w = [] := hmap.symm
          simpa using h1
        | cons m0 m' =>
          have hx : m0 = x := by
            simp only [List.cons_append] at hmp
            exact (List.cons.inj hmp).1
          have hxa : x ∈ a := by
            rw [hac]
            exact List.mem_append_right _ (List.mem_cons_self x c'')
          have h1 : isPySpace m0 = false :=
            not_space_of_lowerMatch hws hmap m0 (List.mem_cons_self m0 m')
          rw [hx] at h1
          rw [ha x hxa] at h1
          cases h1
  · rintro ⟨pre, m, post, ht, hmap, hleft, hpost⟩
    refine ⟨a ++ pre, m, post, by simp [ht], hmap, ?_, hpost⟩
    rcases hleft with hnil | ⟨d, hd, hdw⟩
    · subst hnil
      cases hal : a.getLast? with
      | none =>
        rw [List.getLast?_eq_none_iff] at hal
        subst hal
        exact Or.inl rfl
      | some d =>
        obtain ⟨ys, hys⟩ := List.getLast?_eq_some_iff.mp hal
        have hda : d ∈ a := by rw [hys]; exact List.mem_append_right _ (List.mem_singleton.mpr rfl)
        refine Or.inr ⟨d, ?_, isWordChar_eq_false_of_isPySpace (ha d hda)⟩
        simpa using hal
    · have hpre : pre ≠ [] := by
        intro hn; rw [hn] at hd; simp at hd
      rw [List.getLast?_append_of_ne_nil a hpre]
      exact Or.inr ⟨d, hd, hdw⟩

theorem hasWholeWord_reverse_of {w s : List Char} (h : HasWholeWord w s) :
    HasWholeWord w.reverse s.reverse := by
  obtain ⟨pre, m, post, hsplit, hmap, hleft, hpost⟩ := h
  refine ⟨post.reverse, m.reverse, pre.reverse, by simp [hsplit], ?_, ?_, ?_⟩
  · rw [List.map_reverse, List.map_reverse, hmap]
  · rcases hpost with hnil | ⟨c, hc, hcw⟩
    · subst hnil; exact Or.inl rfl
    · exact Or.inr ⟨c, by simpa using hc, hcw⟩
  · rcases hleft with hnil | ⟨c, hc, hcw⟩
    · subst hnil; exact Or.inl rfl
    · exact Or.inr ⟨c, by simpa using hc, hcw⟩

theorem hasWholeWord_reverse {w s : List Char} :
    HasWholeWord w s ↔ HasWholeWord w.reverse s.reverse := by
  constructor
  · exact hasWholeWord_reverse_of
  · intro h
    have h2 := hasWholeWord_reverse_of h
    simpa using h2

/-- Splitting a string around its stripped core: the discarded margins are
all whitespace. -/
theorem pyStrip_decomp (s : String) :
    ∃ a b, s.data = a ++ (pyStrip s).data ++ b ∧
      (∀ c ∈ a, isPySpace c = true) ∧ (∀ c ∈ b, isPySpace c = true) := by
  refine ⟨s.data.takeWhile isPySpace,
    ((s.data.dropWhile isPySpace).reverse.takeWhile isPySpace).reverse, ?_,
    fun c hc => List.mem_takeWhile_imp hc,
    fun c hc => List.mem_takeWhile_imp (List.mem_reverse.mp hc)⟩
  show s.data = List.takeWhile isPySpace s.data ++
      ((s.data.dropWhile isPySpace).reverse.dropWhile isPySpace).reverse ++
      ((s.data.dropWhile isPySpace).reverse.takeWhile isPySpace).reverse
  rw [List.append_assoc, ← List.reverse_append, List.takeWhile_append_dropWhile,
    List.reverse_reverse, List.takeWhile_append_dropWhile]

/-- Whole-word presence in the stripped text equals presence in the raw text
(for a pattern that contains no whitespace). -/
theorem hasWholeWord_pyStrip (w : List Char) (msg : String) (hw : w ≠ [])
    (hws : ∀ d ∈ w, isPySpace d.toLower = false) :
    HasWholeWord w (pyStrip msg).data ↔ HasWholeWord w msg.data := by
  obtain ⟨a, b, hsplit, ha, hb⟩ := pyStrip_decomp msg
  rw [hsplit, List.append_assoc, hasWholeWord_append_left hw hws ha]
  rw [hasWholeWord_reverse (s := (pyStrip msg).data ++ b), List.reverse_append]
  rw [hasWholeWord_append_left (by simpa using hw)
    (fun d hd => hws d (List.mem_reverse.mp hd)) (fun c hc => hb c (List.mem_reverse.mp hc))]
  exact hasWholeWord_reverse (w := w) (s := (pyStrip msg).data)

/-- **C8** — Yes/No matcher: with case-insensitive whole-word (boundary, not
substring) matching, the extractor returns "YES" exactly when "yes" occurs as
a whole word, "NO" exactly when "yes" does not but "no" does (so "YES" takes
priority), and "unknown" otherwise; in particular `"Yes, but also no"` yields
"YES" and `"yesterday was fine"` yields "unknown" ("yes" inside "yesterday"
is not a whole word). -/
theorem get_insurBench_label_whole_word (msg : String) :
    (get_insurBench_predicted_label msg = "YES" ↔ HasWholeWord "yes".data msg.data) ∧
    (get_insurBench_predicted_label msg = "NO" ↔
      (¬ HasWholeWord "yes".data msg.data ∧ HasWholeWord "no".data msg.data)) ∧
    (get_insurBench_predicted_label msg = "unknown" ↔
      (¬ HasWholeWord "yes".data msg.data ∧ ¬ HasWholeWord "no".data msg.data)) ∧
    get_insurBench_predicted_label "Yes, but also no" = "YES" ∧
    get_insurBench_predicted_label "yesterday was fine" = "unknown" := by
  have hyes : searchWord "yes".data (pyStrip msg).data = true ↔
      HasWholeWord "yes".data msg.data :=
    (searchWord_iff _ _ (by decide)).trans
      (hasWholeWord_pyStrip _ msg (by decide) (by decide))
  have hno : searchWord "no".data (pyStrip msg).data = true ↔
      HasWholeWord "no".data msg.data :=
    (searchWord_iff _ _ (by decide)).trans
      (hasWholeWord_pyStrip _ msg (by decide) (by decide))
  by_cases h1 : searchWord "yes".data (pyStrip msg).data = true
  · have hy := hyes.mp h1
    have hlab : get_insurBench_predicted_label msg = "YES" := by
      simp [get_insurBench_predicted_label, h1]
    refine ⟨iff_of_true hlab hy, iff_of_false ?_ ?_, iff_of_false ?_ ?_, by decide, by decide⟩
    · rw [hlab]; decide
    · rintro ⟨hn, -⟩; exact hn hy
    · rw [hlab]; decide
    · rintro ⟨hn, -⟩; exact hn hy
  · have hyN : ¬ HasWholeWord "yes".data msg.data := fun h => h1 (hyes.mpr h)
    by_cases h2 : searchWord "no".data (pyStrip msg).data = true
    · have hn := hno.mp h2
      have hlab : get_insurBench_predicted_label msg = "NO" := by
        simp [get_insurBench_predicted_label, h1, h2]
      refine ⟨iff_of_false ?_ hyN, iff_of_true hlab ⟨hyN, hn⟩,
        iff_of_false ?_ ?_, by decide, by decide⟩
      · rw [hlab]; decide
      · rw [hlab]; decide
      · rintro ⟨-, hnn⟩; exact hnn hn
    · have hnN : ¬ HasWholeWord "no".data msg.data := fun h => h2 (hno.mpr h)
      have hlab : get_insurBench_predicted_label msg = "unknown" := by
        simp [get_insurBench_predicted_label, h1, h2]
      refine ⟨iff_of_false ?_ hyN, iff_of_false ?_ ?_,
        iff_of_true hlab ⟨hyN, hnN⟩, by decide, by decide⟩
      · rw [hlab]; decide
      · rw [hlab]; decide
      · rintro ⟨-, hn2⟩; exact hnN hn2

/- ## Fixed-vocabulary tag matcher (`evaluate.get_prediction_XBRL_TAGS`) -/

/-- The 139 XBRL taxonomy tags from `evaluate.py` (`XBRL_TAGS`), in source
order. -/
def XBRL_TAGS : List String := [
  "SharebasedCompensationArrangementBySharebasedPaymentAwardAwardVestingRightsPercentage",
  "InterestExpense",
  "GoodwillImpairmentLoss",
  "SaleOfStockPricePerShare",
  "BusinessCombinationAcquisitionRelatedCosts",
  "LineOfCreditFacilityCurrentBorrowingCapacity",
  "LineOfCreditFacilityMaximumBorrowingCapacity",
  "PreferredStockSharesAuthorized",
  "RestructuringCharges",
  "IncomeLossFromEquityMethodInvestments",
  "EquityMethodInvestmentOwnershipPercentage",
  "Revenues",
  "NumberOfRealEstateProperties",
  "CumulativeEffectOfNewAccountingPrincipleInPeriodOfAdoption",
  "IncomeTaxExpenseBenefit",
  "SharebasedCompensationArrangementBySharebasedPaymentAwardExpirationPeriod",
  "DebtInstrumentFairValue",
  "AccrualForEnvironmentalLossContingencies",
  "CommonStockDividendsPerShareDeclared",
  "UnrecognizedTaxBenefitsThatWouldImpactEffectiveTaxRate",
  "Goodwill",
  "CommonStockSharesAuthorized",
  "UnrecognizedTaxBenefits",
  "LineOfCredit",
  "PublicUtilitiesRequestedRateIncreaseDecreaseAmount",
  "EquityMethodInvestments",
  "LineOfCreditFacilityUnusedCapacityCommitmentFeePercentage",
  "ShareBasedCompensationArrangementByShareBasedPaymentAwardEquityInstrumentsOtherThanOptionsVestedInPeriodTotalFairValue",
  "CommonStockCapitalSharesReservedForFutureIssuance",
  "DebtInstrumentConvertibleConversionPrice1",
  "LossContingencyPendingClaimsNumber",
  "OperatingLeasePayments",
  "LongTermDebtFairValue",
  "LeaseAndRentalExpense",
  "OperatingLeaseWeightedAverageRemainingLeaseTerm1",
  "LongTermDebt",
  "ClassOfWarrantOrRightExercisePriceOfWarrantsOrRights1",
  "DefinedContributionPlanCostRecognized",
  "LesseeOperatingLeaseTermOfContract",
  "ShareBasedCompensationArrangementByShareBasedPaymentAwardNumberOfSharesAuthorized",
  "DebtWeightedAverageInterestRate",
  "GuaranteeObligationsMaximumExposure",
  "DebtInstrumentTerm",
  "CapitalizedContractCostAmortization",
  "FiniteLivedIntangibleAssetUsefulLife",
  "ShareBasedCompensationArrangementByShareBasedPaymentAwardOptionsGrantsInPeriodGross",
  "DebtInstrumentInterestRateEffectivePercentage",
  "LettersOfCreditOutstandingAmount",
  "NumberOfOperatingSegments",
  "AllocatedShareBasedCompensationExpense",
  "CashAndCashEquivalentsFairValueDisclosure",
  "ContractWithCustomerLiabilityRevenueRecognized",
  "EmployeeServiceShareBasedCompensationTaxBenefitFromCompensationExpense",
  "LineOfCreditFacilityCommitmentFeePercentage",
  "DerivativeNotionalAmount",
  "AntidilutiveSecuritiesExcludedFromComputationOfEarningsPerShareAmount",
  "TreasuryStockAcquiredAverageCostPerShare",
  "RevenueFromRelatedParties",
  "BusinessAcquisitionPercentageOfVotingInterestsAcquired",
  "AmortizationOfIntangibleAssets",
  "BusinessCombinationRecognizedIdentifiableAssetsAcquiredAndLiabilitiesAssumedIntangibleAssetsOtherThanGoodwill",
  "ContractWithCustomerLiability",
  "ShareBasedCompensationArrangementByShareBasedPaymentAwardOptionsGrantsInPeriodWeightedAverageGrantDateFairValue",
  "AssetImpairmentCharges",
  "DebtInstrumentBasisSpreadOnVariableRate1",
  "BusinessCombinationConsiderationTransferred1",
  "DebtInstrumentUnamortizedDiscount",
  "PaymentsToAcquireBusinessesNetOfCashAcquired",
  "ShareBasedCompensationArrangementByShareBasedPaymentAwardAwardVestingPeriod1",
  "DebtInstrumentCarryingAmount",
  "AcquiredFiniteLivedIntangibleAssetsWeightedAverageUsefulLife",
  "DerivativeFixedInterestRate",
  "ShareBasedCompensationArrangementByShareBasedPaymentAwardEquityInstrumentsOtherThanOptionsGrantsInPeriod",
  "TreasuryStockValueAcquiredCostMethod",
  "OperatingLossCarryforwards",
  "DebtInstrumentMaturityDate",
  "ShareBasedCompensationArrangementByShareBasedPaymentAwardEquityInstrumentsOtherThanOptionsNonvestedNumber",
  "DefinedBenefitPlanContributionsByEmployer",
  "GainsLossesOnExtinguishmentOfDebt",
  "AreaOfRealEstateProperty",
  "BusinessAcquisitionEquityInterestsIssuedOrIssuableNumberOfSharesIssued",
  "SaleOfStockNumberOfSharesIssuedInTransaction",
  "SupplementalInformationForPropertyCasualtyInsuranceUnderwritersPriorYearClaimsAndClaimsAdjustmentExpense",
  "RevenueFromContractWithCustomerIncludingAssessedTax",
  "DeferredFinanceCostsGross",
  "NumberOfReportableSegments",
  "BusinessCombinationContingentConsiderationLiability",
  "ShareBasedCompensationArrangementByShareBasedPaymentAwardEquityInstrumentsOtherThanOptionsGrantsInPeriodWeightedAverageGrantDateFairValue",
  "RepaymentsOfDebt",
  "SharePrice",
  "ShareBasedCompensationArrangementByShareBasedPaymentAwardNumberOfSharesAvailableForGrant",
  "StockRepurchaseProgramAuthorizedAmount1",
  "LineOfCreditFacilityRemainingBorrowingCapacity",
  "PropertyPlantAndEquipmentUsefulLife",
  "ShareBasedCompensationArrangementByShareBasedPaymentAwardOptionsExercisesInPeriodTotalIntrinsicValue",
  "DisposalGroupIncludingDiscontinuedOperationConsideration",
  "DebtInstrumentRedemptionPricePercentage",
  "DebtInstrumentInterestRateStatedPercentage",
  "OperatingLeasesRentExpenseNet",
  "StockRepurchaseProgramRemainingAuthorizedRepurchaseAmount1",
  "AmortizationOfFinancingCosts",
  "ConcentrationRiskPercentage1",
  "Depreciation",
  "RevenueFromContractWithCustomerExcludingAssessedTax",
  "RelatedPartyTransactionExpensesFromTransactionsWithRelatedParty",
  "DebtInstrumentFaceAmount",
  "RestructuringAndRelatedCostExpectedCost1",
  "EmployeeServiceShareBasedCompensationNonvestedAwardsTotalCompensationCostNotYetRecognizedPeriodForRecognition1",
  "MinorityInterestOwnershipPercentageByNoncontrollingOwners",
  "CommonStockParOrStatedValuePerShare",
  "MinorityInterestOwnershipPercentageByParent",
  "CommonStockSharesOutstanding",
  "EmployeeServiceShareBasedCompensationNonvestedAwardsTotalCompensationCostNotYetRecognized",
  "DeferredFinanceCostsNet",
  "ShareBasedCompensation",
  "InterestExpenseDebt",
  "StockIssuedDuringPeriodSharesNewIssues",
  "EffectiveIncomeTaxRateContinuingOperations",
  "BusinessCombinationRecognizedIdentifiableAssetsAcquiredAndLiabilitiesAssumedIntangibles",
  "OperatingLeaseExpense",
  "PreferredStockDividendRatePercentage",
  "StockRepurchasedDuringPeriodShares",
  "OperatingLeaseCost",
  "ProceedsFromIssuanceOfCommonStock",
  "StockRepurchasedAndRetiredDuringPeriodShares",
  "RelatedPartyTransactionAmountsOfTransaction",
  "EmployeeServiceShareBasedCompensationNonvestedAwardsTotalCompensationCostNotYetRecognizedShareBasedAwardsOtherThanOptions",
  "OperatingLeaseLiability",
  "EffectiveIncomeTaxRateReconciliationAtFederalStatutoryIncomeTaxRate",
  "OperatingLeaseWeightedAverageDiscountRatePercent",
  "PaymentsToAcquireBusinessesGross",
  "LossContingencyDamagesSoughtValue",
  "TreasuryStockSharesAcquired",
  "LossContingencyAccrualAtCarryingValue",
  "RevenueRemainingPerformanceObligation",
  "LineOfCreditFacilityInterestRateAtPeriodEnd",
  "LesseeOperatingLeaseRenewalTerm",
  "OperatingLeaseRightOfUseAsset",
  "LossContingencyEstimateOfPossibleLoss"
]

/-- Python `max(l, key=len)` on a non-empty list: scan left to right, replace
the current best only on a strictly greater length (so the first longest
element wins ties).  On `[]` Python raises; the call sites guard non-emptiness,
so the `[]` case is arbitrary. -/
def pyMaxByLen (l : List String) : String :=
  match l with
  | [] => ""
  | t :: ts => ts.foldl (fun acc x => if acc.length < x.length then x else acc) t

/-- Stage-1 match list of `get_prediction_XBRL_TAGS`: the tags occurring
verbatim (case-sensitively) in the stripped message (`exact_matches`). -/
def xbrlExactMatches (message : String) : List String :=
  XBRL_TAGS.filter (fun tag => pyContains tag (pyStrip message))

/-- Stage-2 match list of `get_prediction_XBRL_TAGS`: the tags whose lowercase
form occurs in the lowercased stripped message (`ci_matches`).  The Python
code iterates the prebuilt dict `_XBRL_TAGS_LOWER = {tag.lower(): tag}`;
lowercased tag names are pairwise distinct, so the dict's items are exactly
the tags in source order and the comprehension is this filter. -/
def xbrlCiMatches (message : String) : List String :=
  XBRL_TAGS.filter (fun tag => pyContains (pyLower tag) (pyLower (pyStrip message)))

/-- `get_prediction_XBRL_TAGS` from `evaluate.py`: empty message → "unknown";
otherwise longest case-sensitive substring match, then longest
case-insensitive match, then "unknown". -/
def get_prediction_XBRL_TAGS (message : String) : String :=
  if message = "" then "unknown"
  else if !(xbrlExactMatches message).isEmpty then pyMaxByLen (xbrlExactMatches message)
  else if !(xbrlCiMatches message).isEmpty then pyMaxByLen (xbrlCiMatches message)
  else "unknown"

theorem pyMaxByLen_foldl_spec (ts : List String) :
    ∀ t : String,
      (ts.foldl (fun acc x => if acc.length < x.length then x else acc) t = t ∨
        ts.foldl (fun acc x => if acc.length < x.length then x else acc) t ∈ ts) ∧
      t.length ≤ (ts.foldl (fun acc x => if acc.length < x.length then x else acc) t).length ∧
      ∀ x ∈ ts, x.length ≤ (ts.foldl (fun acc x => if acc.length < x.length then x else acc) t).length := by
  induction ts with
  | nil => exact fun t => ⟨Or.inl rfl, le_refl _, by simp⟩
  | cons y ys ih =>
    intro t
    simp only [List.foldl_cons]
    obtain ⟨hmem, hle, hall⟩ := ih (if t.length < y.length then y else t)
    refine ⟨?_, ?_, ?_⟩
    · rcases hmem with h | h
      · by_cases hc : t.length < y.length
        · right; rw [h]; simp [hc]
        · left; rw [h]; simp [hc]
      · right; exact List.mem_cons_of_mem y h
    · refine le_trans ?_ hle
      by_cases hc : t.length < y.length
      · simp only [if_pos hc]; exact le_of_lt hc
      · simp [hc]
    · intro x hx
      rcases List.mem_cons.mp hx with hxy | hxs
      · subst hxy
        refine le_trans ?_ hle
        by_cases hc : t.length < x.length
        · simp [hc]
        · simp only [if_neg hc]
          exact Nat.le_of_not_lt hc
      · exact hall x hxs

/-- `pyMaxByLen` of a non-empty list is an element of maximal length. -/
theorem pyMaxByLen_spec {l : List String} (h : l ≠ []) :
    pyMaxByLen l ∈ l ∧ ∀ x ∈ l, x.length ≤ (pyMaxByLen l).length := by
  match l, h with
  | t :: ts, _ =>
    obtain ⟨hmem, hle, hall⟩ := pyMaxByLen_foldl_spec ts t
    have heq : pyMaxByLen (t :: ts) =
        ts.foldl (fun acc x => if acc.length < x.length then x else acc) t := rfl
    constructor
    · rw [heq]
      rcases hmem with h1 | h1
      · rw [h1]; exact List.mem_cons_self t ts
      · exact List.mem_cons_of_mem t h1
    · intro x hx
      rw [heq]
      rcases List.mem_cons.mp hx with h1 | h1
      · subst h1; exact hle
      · exact hall x h1

/-- **C7** — Fixed-vocabulary tag matcher: if any tag occurs case-sensitively
in the (stripped) text the result is a case-sensitive match of maximal length;
if none does but some tag matches case-insensitively the result is a
case-insensitive match of maximal length; otherwise "unknown"; in particular
a text containing both "Goodwill" and "GoodwillImpairmentLoss" yields
"GoodwillImpairmentLoss". -/
theorem get_prediction_XBRL_TAGS_longest_match (message : String) :
    (xbrlExactMatches message ≠ [] →
      get_prediction_XBRL_TAGS message ∈ xbrlExactMatches message ∧
      ∀ t ∈ XBRL_TAGS, pyContains t (pyStrip message) = true →
        t.length ≤ (get_prediction_XBRL_TAGS message).length) ∧
    (xbrlExactMatches message = [] → xbrlCiMatches message ≠ [] →
      get_prediction_XBRL_TAGS message ∈ xbrlCiMatches message ∧
      ∀ t ∈ XBRL_TAGS, pyContains (pyLower t) (pyLower (pyStrip message)) = true →
        t.length ≤ (get_prediction_XBRL_TAGS message).length) ∧
    (xbrlExactMatches message = [] → xbrlCiMatches message = [] →
      get_prediction_XBRL_TAGS message = "unknown") ∧
    get_prediction_XBRL_TAGS
        "The notes mention Goodwill and GoodwillImpairmentLoss this quarter." =
      "GoodwillImpairmentLoss" := by
  refine ⟨?_, ?_, ?_, by decide⟩
  · intro hne
    have hmsg : message ≠ "" := by
      intro h0
      apply hne
      rw [h0]
      decide
    have hres : get_prediction_XBRL_TAGS message = pyMaxByLen (xbrlExactMatches message) := by
      rw [get_prediction_XBRL_TAGS, if_neg hmsg, if_pos (by simpa using hne)]
    obtain ⟨hmem, hmax⟩ := pyMaxByLen_spec hne
    refine ⟨hres ▸ hmem, fun t ht hc => ?_⟩
    rw [hres]
    exact hmax t (List.mem_filter.mpr ⟨ht, hc⟩)
  · intro hex hne
    have hmsg : message ≠ "" := by
      intro h0
      apply hne
      rw [h0]
      decide
    have hres : get_prediction_XBRL_TAGS message = pyMaxByLen (xbrlCiMatches message) := by
      rw [get_prediction_XBRL_TAGS, if_neg hmsg, if_neg (by simp [hex]),
        if_pos (by simpa using hne)]
    obtain ⟨hmem, hmax⟩ := pyMaxByLen_spec hne
    refine ⟨hres ▸ hmem, fun t ht hc => ?_⟩
    rw [hres]
    exact hmax t (List.mem_filter.mpr ⟨ht, hc⟩)
  · intro hex hci
    by_cases hmsg : message = ""
    · rw [get_prediction_XBRL_TAGS, if_pos hmsg]
    · rw [get_prediction_XBRL_TAGS, if_neg hmsg, if_neg (by simp [hex]),
        if_neg (by simp [hci])]

/-- **C7 witness** — the matcher applied at concrete inputs: a text containing
only the tag "Goodwill" (stage-1 match), and a text with no tag at all. -/
theorem get_prediction_XBRL_TAGS_longest_match_witness :
    get_prediction_XBRL_TAGS "report mentions Goodwill here" ∈
      xbrlExactMatches "report mentions Goodwill here" ∧
    get_prediction_XBRL_TAGS "nothing relevant in this sentence" = "unknown" := by
  constructor
  · exact ((get_prediction_XBRL_TAGS_longest_match "report mentions Goodwill here").1
      (by decide)).1
  · exact (get_prediction_XBRL_TAGS_longest_match "nothing relevant in this sentence").2.2.1
      (by decide) (by decide)

/- ## Session Controller truncation retry (`SkillAwareAgent.chat`) -/

/-- Outcome of one model invocation at the provider boundary: a new assistant
reply, or a `BadRequestError` carrying an error message. -/
inductive ProviderResult where
  | success (response : String)
  | badRequest (errMsg : String)

/-- The retry guard of `chat`: `"context length" in err_msg or "maximum" in
err_msg and "token" in err_msg` on the lowercased error text (Python `or`
binds looser than `and`). -/
def isContextLengthMessage (errMsg : String) : Bool :=
  pyContains "context length" (pyLower errMsg) ||
    (pyContains "maximum" (pyLower errMsg) && pyContains "token" (pyLower errMsg))

/-- What the caller of `chat` observes: the answer, a re-raised context-length
`BadRequestError` (the spec's `ContextOverflowError`), or an unrelated
`BadRequestError` propagated unchanged. -/
inductive ChatOutcome where
  | answered (response : String)
  | contextOverflow (errMsg : String)
  | otherBadRequest (errMsg : String)
deriving DecidableEq

/-- One submission of the retry loop: the user text sent and the thread
identity used.  `uuid.uuid4()` is modelled by a counter, so a "fresh" identity
is one never used before in this call. -/
structure ChatAttempt where
  userText : List Char
  threadId : Nat
deriving DecidableEq

def MAX_TRUNCATION_RETRIES : Nat := 5

/-- The retry loop of `SkillAwareAgent.chat` (`for attempt in
range(MAX_TRUNCATION_RETRIES + 1)`), driven by the number of retries still
available (`attempt < MAX_TRUNCATION_RETRIES` in the source iff retries
remain).  On a context-length `BadRequestError` with retries remaining the
loop keeps the first `⌊n/2⌋` characters of the current user text
(`current_input[: old_len // 2]`, truncation from the end) and switches to a
fresh thread identity; with none remaining it re-raises; a non-context error
propagates immediately.  Returns the trace of submissions and the outcome. -/
def chatRetryGo (provider : List Char → ProviderResult) :
    Nat → List Char → Nat → List ChatAttempt × ChatOutcome
  | 0, input, tid =>
    match provider input with
    | .success r => ([⟨input, tid⟩], .answered r)
    | .badRequest e =>
      if isContextLengthMessage e then ([⟨input, tid⟩], .contextOverflow e)
      else ([⟨input, tid⟩], .otherBadRequest e)
  | n + 1, input, tid =>
    match provider input with
    | .success r => ([⟨input, tid⟩], .answered r)
    | .badRequest e =>
      if isContextLengthMessage e then
        let next := chatRetryGo provider n (input.take (input.length / 2)) (tid + 1)
        (⟨input, tid⟩ :: next.1, next.2)
      else ([⟨input, tid⟩], .otherBadRequest e)

/-- `chat`'s retry loop entered with the full user text, a starting thread
identity, and the default ceiling of 5 truncation retries. -/
def chat_truncation_retry (provider : List Char → ProviderResult)
    (userInput : List Char) (tid : Nat) : List ChatAttempt × ChatOutcome :=
  chatRetryGo provider MAX_TRUNCATION_RETRIES userInput tid

theorem chatRetryGo_always_fault (provider : List Char → ProviderResult)
    (hfault : ∀ s, ∃ e, provider s = .badRequest e ∧ isContextLengthMessage e = true) :
    ∀ (n : Nat) (input : List Char) (t : Nat),
      ((chatRetryGo provider n input t).1.map fun a => a.userText.length) =
        (List.range (n + 1)).map (fun k => input.length / 2 ^ k) ∧
      ((chatRetryGo provider n input t).1.map fun a => a.threadId) =
        (List.range (n + 1)).map (fun k => t + k) ∧
      (chatRetryGo provider n input t).1.head? = some ⟨input, t⟩ ∧
      List.Chain' (fun a b => b.userText = a.userText.take (a.userText.length / 2))
        (chatRetryGo provider n input t).1 ∧
      ∃ e, (chatRetryGo provider n input t).2 = .contextOverflow e ∧
        isContextLengthMessage e = true := by
  intro n
  induction n with
  | zero =>
    intro input t
    obtain ⟨e, he, hce⟩ := hfault input
    have hstep : chatRetryGo provider 0 input t = ([⟨input, t⟩], .contextOverflow e) := by
      simp [chatRetryGo, he, hce]
    rw [hstep]
    exact ⟨by simp [List.range_succ], by simp [List.range_succ], rfl, by simp, e, rfl, hce⟩
  | succ n ih =>
    intro input t
    obtain ⟨e, he, hce⟩ := hfault input
    have hstep : chatRetryGo provider (n + 1) input t =
        (⟨input, t⟩ :: (chatRetryGo provider n (input.take (input.length / 2)) (t + 1)).1,
          (chatRetryGo provider n (input.take (input.length / 2)) (t + 1)).2) := by
      simp [chatRetryGo, he, hce]
    obtain ⟨ih1, ih2, ihHead, ihChain, e', he', hce'⟩ := ih (input.take (input.length / 2)) (t + 1)
    have hlen : (input.take (input.length / 2)).length = input.length / 2 := by
      rw [List.length_take]
      exact min_eq_left (Nat.div_le_self _ _)
    refine ⟨?_, ?_, by rw [hstep]; rfl, ?_, e', by rw [hstep]; exact he', hce'⟩
    · rw [hstep]
      simp only [List.map_cons, ih1, hlen]
      rw [List.range_succ_eq_map (n := n + 1), List.map_cons, List.map_map]
      have hfun : ((fun k => input.length / 2 ^ k) ∘ Nat.succ) =
          fun k => input.length / 2 / 2 ^ k := by
        funext k
        simp only [Function.comp_apply]
        rw [Nat.div_div_eq_div_mul, ← pow_succ']
      rw [hfun]
      simp
    · rw [hstep]
      simp only [List.map_cons, ih2]
      rw [List.range_succ_eq_map (n := n + 1), List.map_cons, List.map_map]
      have hfun : ((fun k => t + k) ∘ Nat.succ) = fun k => t + 1 + k := by
        funext k
        simp only [Function.comp_apply]
        omega
      rw [hfun]
      simp
    · rw [hstep]
      rw [List.chain'_cons']
      refine ⟨?_, ihChain⟩
      intro y hy
      rw [ihHead] at hy
      cases hy
      rfl

/-- **C1** — Truncation retry schedule: against a provider that always reports
a context-length fault, the loop makes 6 submissions (1 initial + 5 retries);
the k-th submission (k = 0..5) carries the first ⌊N/2^k⌋ characters of the
original user text, each being a prefix of the previous obtained by halving
(integer division, truncated from the end); every retry runs under a fresh
thread identity, all 6 identities pairwise distinct; and the caller finally
observes the re-raised context-length error only after the retry ceiling of 5
is exhausted. -/
theorem chat_truncation_retry_schedule (provider : List Char → ProviderResult)
    (hfault : ∀ s, ∃ e, provider s = .badRequest e ∧ isContextLengthMessage e = true)
    (userInput : List Char) (tid : Nat) :
    ((chat_truncation_retry provider userInput tid).1.map fun a => a.userText.length) =
      (List.range (MAX_TRUNCATION_RETRIES + 1)).map (fun k => userInput.length / 2 ^ k) ∧
    ((chat_truncation_retry provider userInput tid).1.map fun a => a.threadId) =
      (List.range (MAX_TRUNCATION_RETRIES + 1)).map (fun k => tid + k) ∧
    ((chat_truncation_retry provider userInput tid).1.map fun a => a.threadId).Nodup ∧
    List.Chain' (fun a b => b.userText = a.userText.take (a.userText.length / 2))
      (chat_truncation_retry provider userInput tid).1 ∧
    ∃ e, (chat_truncation_retry provider userInput tid).2 = .contextOverflow e ∧
      isContextLengthMessage e = true := by
  obtain ⟨h1, h2, hHead, hChain, hout⟩ :=
    chatRetryGo_always_fault provider hfault MAX_TRUNCATION_RETRIES userInput tid
  refine ⟨h1, h2, ?_, hChain, hout⟩
  rw [show ((chat_truncation_retry provider userInput tid).1.map fun a => a.threadId) =
    (List.range (MAX_TRUNCATION_RETRIES + 1)).map (fun k => tid + k) from h2]
  exact List.Nodup.map (fun a b hab => by omega) (List.nodup_range _)

/-- **C1 witness** — the schedule at a concrete always-faulting provider and
the 8-character input "abcdefgh": submitted lengths 8, 4, 2, 1, 0, 0; thread
ids 0..5; final outcome is the re-raised context-length error. -/
theorem chat_truncation_retry_schedule_witness :
    ((chat_truncation_retry
        (fun _ => .badRequest "This model's maximum context length is 8192 tokens")
        "abcdefgh".data 0).1.map fun a => a.userText.length) = [8, 4, 2, 1, 0, 0] ∧
    ((chat_truncation_retry
        (fun _ => .badRequest "This model's maximum context length is 8192 tokens")
        "abcdefgh".data 0).1.map fun a => a.threadId) = [0, 1, 2, 3, 4, 5] ∧
    ∃ e, (chat_truncation_retry
        (fun _ => .badRequest "This model's maximum context length is 8192 tokens")
        "abcdefgh".data 0).2 = .contextOverflow e ∧ isContextLengthMessage e = true := by
  have h := chat_truncation_retry_schedule
    (fun _ => .badRequest "This model's maximum context length is 8192 tokens")
    (fun s => ⟨"This model's maximum context length is 8192 tokens", rfl, by decide⟩)
    "abcdefgh".data 0
  refine ⟨?_, ?_, h.2.2.2.2⟩
  · rw [h.1]; decide
  · rw [h.2.1]; decide

/- ## Skill Discovery Loop (benchmark scripts, Steps 1-2) -/

/-- Skill metadata as consumed by the discovery loop (name, description, and
the Markdown body of the SKILL.md file). -/
structure SkillMeta where
  name : String
  description : String
  body : String
deriving DecidableEq

/-- Python `s.split('\n')` over character lists. -/
def splitOnNl : List Char → List (List Char)
  | [] => [[]]
  | c :: rest =>
    match splitOnNl rest with
    | [] => [[]]
    | g :: gs => if c == '\n' then [] :: g :: gs else (c :: g) :: gs

/-- Python `'\n'.join(groups)` over character lists. -/
def joinNl : List (List Char) → List Char
  | [] => []
  | [g] => g
  | g :: gs => g ++ '\n' :: joinNl gs

/-- `'\n'.join(body.split('\n')[1:])` — the skill body with its first line
removed (the scripts treat it as a redundant heading). -/
def dropFirstLine (s : String) : String :=
  match splitOnNl s.data with
  | [] => ⟨[]⟩
  | _ :: rest => ⟨joinNl rest⟩

/-- One block appended to `skill_execution_context`:
`f"SKill {skill_count + 1}: \n{description}\n{joined-body}\n\n"`, where
`count` is the global `skill_count` value at the moment of insertion. -/
def skillBlock (count : Nat) (m : SkillMeta) : String :=
  "SKill " ++ toString (count + 1) ++ ": \n" ++ m.description ++ "\n" ++
    dropFirstLine m.body ++ "\n\n"

/-- The `for skill_meta in selected_skills` append loop: each skill is paired
with the counter value at its insertion, and the counter advances by one per
skill. -/
def tagBlocks : Nat → List SkillMeta → List (Nat × SkillMeta)
  | _, [] => []
  | c, m :: rest => (c, m) :: tagBlocks (c + 1) rest

/-- The accumulated `skill_execution_context` text of a list of tagged
blocks. -/
def contextOfBlocks (blocks : List (Nat × SkillMeta)) : String :=
  String.join (blocks.map fun b => skillBlock b.1 b.2)

/-- The `while len(selected_skills) > 0` discovery loop, driven by the
already-parsed selections the model returns round by round.  Each executed
round appends the round's selection tagged with the running `skill_count` and
increments `discovery_rounds` (a round returning an empty selection is still
counted before the loop exits).  Returns the appended blocks, the final
`skill_count`, and `discovery_rounds`; `none` when the scripted responses run
out before convergence (the source loop has no round cap and would keep
querying the model). -/
def discoveryLoop :
    List (List SkillMeta) → List SkillMeta → Nat → Nat →
      Option (List (Nat × SkillMeta) × Nat × Nat)
  | _, [], count, rounds => some ([], count, rounds)
  | [], _ :: _, _, _ => none
  | r :: rest, _ :: _, count, rounds =>
    (discoveryLoop rest r (count + r.length) (rounds + 1)).map
      (fun out => (tagBlocks count r ++ out.1, out.2))

/-- The parsed model replies of one classification task: the Selection-phase
result and the successive Discovery-round results. -/
structure TaskRun where
  selection : List SkillMeta
  discovery : List (List SkillMeta)
deriving DecidableEq

/-- What one task leaves behind: the global counter on entry, the tagged
blocks of its `skill_execution_context`, the counter on exit,
`discovery_rounds`, and `new_skills_found`. -/
structure TaskResult where
  startCount : Nat
  blocks : List (Nat × SkillMeta)
  endCount : Nat
  discoveryRounds : Nat
  newSkillsFound : Nat
deriving DecidableEq

/-- One classification task (Steps 1-2 of the script): Selection appends the
selected skills, `skill_count_prev` is recorded, the Discovery loop runs with
`discovery_rounds = 0`, and `new_skills_found = skill_count -
skill_count_prev`.  `count0` is the global `skill_count` on entry. -/
def runTask (count0 : Nat) (t : TaskRun) : Option TaskResult :=
  let selBlocks := tagBlocks count0 t.selection
  let countSel := count0 + t.selection.length
  match discoveryLoop t.discovery t.selection countSel 0 with
  | none => none
  | some (dBlocks, endC, rounds) =>
    some ⟨count0, selBlocks ++ dBlocks, endC, rounds, endC - countSel⟩

/-- The per-sample loop of the scripts: `skill_count = 0` is executed once
before the loop, so the counter threads across tasks, while
`discovery_rounds` and `skill_execution_context` start fresh per task. -/
def runTasks : Nat → List TaskRun → Option (List TaskResult)
  | _, [] => some []
  | c, t :: ts =>
    match runTask c t with
    | none => none
    | some res => (runTasks res.endCount ts).map (res :: ·)

/-- **C2** — Discovery-loop metrics: Selection returns {A, B}, Discovery round
1 returns {C}, round 2 returns {} → the loop ends with `discovery_rounds = 2`
(the empty round counts) and `new_skills_found = 1` (only C; A and B were
appended during Selection), whatever the entry value of the global counter. -/
theorem discovery_loop_metrics (count0 : Nat) (A B C : SkillMeta) :
    (runTask count0 ⟨[A, B], [[C], []]⟩).map
      (fun r => (r.discoveryRounds, r.newSkillsFound)) = some (2, 1) := by
  simp [runTask, discoveryLoop, tagBlocks]

/-- **C5 counterexample** — `skill_count` is initialized once per run, not per
task: in a run of two tasks each selecting one skill (and discovering none),
the second task starts with counter 1, not 0, and its only context block is
tagged with the global value 1 (rendered "SKill 2"), not with a per-task
index 0 (rendered "SKill 1"). -/
theorem discovery_state_not_fresh_counterexample :
    runTasks 0
        [⟨[⟨"skill-a", "da", "heading\nbody-a"⟩], [[]]⟩,
          ⟨[⟨"skill-b", "db", "heading\nbody-b"⟩], [[]]⟩] =
      some [⟨0, [(0, ⟨"skill-a", "da", "heading\nbody-a"⟩)], 1, 1, 0⟩,
        ⟨1, [(1, ⟨"skill-b", "db", "heading\nbody-b"⟩)], 2, 1, 0⟩] ∧
    (1 : Nat) ≠ 0 ∧
    contextOfBlocks [(1, ⟨"skill-b", "db", "heading\nbody-b"⟩)] =
      "SKill 2: \ndb\nbody-b\n\n" ∧
    ("SKill 2: \ndb\nbody-b\n\n" : String) ≠ "SKill 1: \ndb\nbody-b\n\n" := by
  refine ⟨by decide, by decide, by decide, by decide⟩

/-- Helper: the tags produced by the append loop are consecutive counter
values. -/
theorem tagBlocks_map_fst (c : Nat) (l : List SkillMeta) :
    (tagBlocks c l).map Prod.fst = List.range' c l.length := by
  induction l generalizing c with
  | nil => simp [tagBlocks]
  | cons m rest ih => simp [tagBlocks, List.range'_succ, ih]

theorem tagBlocks_length (c : Nat) (l : List SkillMeta) :
    (tagBlocks c l).length = l.length := by
  induction l generalizing c with
  | nil => rfl
  | cons m rest ih => simp [tagBlocks, ih]

theorem range'_append_consecutive (c a b : Nat) :
    List.range' c a ++ List.range' (c + a) b = List.range' c (a + b) := by
  rw [List.range'_append_1, Nat.add_comm]

/-- Helper: a converging discovery loop appends consecutively tagged blocks
and advances the counter by exactly the number of appended blocks. -/
theorem discoveryLoop_spec :
    ∀ (responses : List (List SkillMeta)) (selected : List SkillMeta)
      (count rounds : Nat) (blocks : List (Nat × SkillMeta)) (endC endR : Nat),
      discoveryLoop responses selected count rounds = some (blocks, endC, endR) →
      blocks.map Prod.fst = List.range' count blocks.length ∧
      endC = count + blocks.length := by
  intro responses
  induction responses with
  | nil =>
    intro selected count rounds blocks endC endR h
    cases selected with
    | nil =>
      simp only [discoveryLoop, Option.some.injEq, Prod.mk.injEq] at h
      obtain ⟨h1, h2, -⟩ := h
      subst h1
      subst h2
      simp
    | cons s ss => simp [discoveryLoop] at h
  | cons r rest ih =>
    intro selected count rounds blocks endC endR h
    cases selected with
    | nil =>
      simp only [discoveryLoop, Option.some.injEq, Prod.mk.injEq] at h
      obtain ⟨h1, h2, -⟩ := h
      subst h1
      subst h2
      simp
    | cons s ss =>
      simp only [discoveryLoop, Option.map_eq_some'] at h
      obtain ⟨⟨b', c', r'⟩, hinner, hout⟩ := h
      obtain ⟨hmap, hc⟩ := ih r (count + r.length) (rounds + 1) b' c' r' hinner
      simp only [Prod.mk.injEq] at hout
      obtain ⟨hb, hc2, -⟩ := hout
      subst hb
      constructor
      · rw [List.map_append, tagBlocks_map_fst, hmap, List.length_append, tagBlocks_length]
        rw [← range'_append_consecutive count r.length b'.length]
      · rw [← hc2, hc, List.length_append, tagBlocks_length]
        omega

/-- Helper: what one task guarantees about its result record. -/
theorem runTask_spec {count0 : Nat} {t : TaskRun} {res : TaskResult}
    (h : runTask count0 t = some res) :
    res.startCount = count0 ∧
    res.blocks.map Prod.fst = List.range' res.startCount res.blocks.length ∧
    res.endCount = res.startCount + res.blocks.length ∧
    res.newSkillsFound = res.endCount - (count0 + t.selection.length) := by
  cases hdl : discoveryLoop t.discovery t.selection (count0 + t.selection.length) 0 with
  | none =>
    simp only [runTask, hdl] at h
    exact Option.noConfusion h
  | some out =>
    obtain ⟨dBlocks, endC, rounds⟩ := out
    simp only [runTask, hdl, Option.some.injEq] at h
    subst h
    obtain ⟨hmap, hc⟩ := discoveryLoop_spec t.discovery t.selection
      (count0 + t.selection.length) 0 dBlocks endC rounds hdl
    refine ⟨rfl, ?_, ?_, rfl⟩
    · show (tagBlocks count0 t.selection ++ dBlocks).map Prod.fst =
        List.range' count0 (tagBlocks count0 t.selection ++ dBlocks).length
      rw [List.map_append, tagBlocks_map_fst, hmap, List.length_append, tagBlocks_length,
        ← range'_append_consecutive]
    · show endC = count0 + (tagBlocks count0 t.selection ++ dBlocks).length
      rw [hc, List.length_append, tagBlocks_length]
      omega

/-- **C5 (amended)** — `discovery_rounds` and the execution context are fresh
per task, but the skill counter (`skill_count`) is initialized once per run
and threads across tasks: the first task starts at the run's initial value,
each task's context blocks are tagged with consecutive global counter values
starting from the task's entry value (not from zero), the counter leaves each
task advanced by the number of blocks appended, and each subsequent task
starts exactly where the previous one ended. -/
theorem discovery_state_counter_global (count0 : Nat) (tasks : List TaskRun)
    (results : List TaskResult) (h : runTasks count0 tasks = some results) :
    results.length = tasks.length ∧
    (∀ r ∈ results,
      r.blocks.map Prod.fst = List.range' r.startCount r.blocks.length ∧
      r.endCount = r.startCount + r.blocks.length) ∧
    (∀ r rest, results = r :: rest → r.startCount = count0) ∧
    List.Chain' (fun a b => b.startCount = a.endCount) results := by
  induction tasks generalizing count0 results with
  | nil =>
    simp only [runTasks, Option.some.injEq] at h
    subst h
    refine ⟨rfl, by simp, ?_, by simp⟩
    intro r rest hr
    cases hr
  | cons t ts ih =>
    cases hrt : runTask count0 t with
    | none =>
      simp only [runTasks, hrt] at h
      exact Option.noConfusion h
    | some res =>
      simp only [runTasks, hrt, Option.map_eq_some'] at h
      obtain ⟨rs, hrs, hres⟩ := h
      subst hres
      obtain ⟨ihlen, ihall, ihhead, ihchain⟩ := ih res.endCount rs hrs
      obtain ⟨hstart, hmap, hend, -⟩ := runTask_spec hrt
      refine ⟨by simp [ihlen], ?_, ?_, ?_⟩
      · intro r hr
        rcases List.mem_cons.mp hr with hr1 | hr2
        · subst hr1
          exact ⟨hmap, hend⟩
        · exact ihall r hr2
      · intro r rest hr
        injection hr with h1 h2
        rw [← h1]
        exact hstart
      · rw [List.chain'_cons']
        refine ⟨?_, ihchain⟩
        intro y hy
        cases rs with
        | nil => simp at hy
        | cons r2 rs2 =>
          rw [List.head?_cons, Option.mem_def, Option.some.injEq] at hy
          rw [← hy]
          exact ihhead r2 rs2 rfl

/-- **C5 witness** — the amended statement applied to the concrete two-task
run of the counterexample: two result records, and the second task's start
count chains from the first task's end count. -/
theorem discovery_state_counter_global_witness :
    ([⟨0, [(0, (⟨"skill-a", "da", "heading\nbody-a"⟩ : SkillMeta))], 1, 1, 0⟩,
        ⟨1, [(1, ⟨"skill-b", "db", "heading\nbody-b"⟩)], 2, 1, 0⟩] :
      List TaskResult).length =
      ([⟨[⟨"skill-a", "da", "heading\nbody-a"⟩], [[]]⟩,
          ⟨[⟨"skill-b", "db", "heading\nbody-b"⟩], [[]]⟩] : List TaskRun).length ∧
    List.Chain' (fun a b => b.startCount = a.endCount)
      ([⟨0, [(0, ⟨"skill-a", "da", "heading\nbody-a"⟩)], 1, 1, 0⟩,
        ⟨1, [(1, ⟨"skill-b", "db", "heading\nbody-b"⟩)], 2, 1, 0⟩] : List TaskResult) := by
  have h := discovery_state_counter_global 0
    [⟨[⟨"skill-a", "da", "heading\nbody-a"⟩], [[]]⟩,
      ⟨[⟨"skill-b", "db", "heading\nbody-b"⟩], [[]]⟩]
    [⟨0, [(0, ⟨"skill-a", "da", "heading\nbody-a"⟩)], 1, 1, 0⟩,
      ⟨1, [(1, ⟨"skill-b", "db", "heading\nbody-b"⟩)], 2, 1, 0⟩]
    (by decide)
  exact ⟨h.1, h.2.2.2⟩

/- ## JSON reply parsing (`skill_util.py`) -/

/-- JSON values as produced by `json.loads` (numeric literals modelled as
integers; float precision is outside the shallow embedding). -/
inductive PyJson where
  | null
  | bool (b : Bool)
  | num (n : Int)
  | str (s : String)
  | arr (elems : List PyJson)
  | obj (entries : List (String × PyJson))

/-- The Python exceptions the two reply parsers can actually raise past their
`except` tuples; a `json.JSONDecodeError` is represented by the parser
receiving `none` in place of a decoded value. -/
inductive PyErr where
  | attributeError
  | typeError
deriving DecidableEq

/-- Python truthiness of a JSON-decoded value. -/
def truthy : PyJson → Bool
  | .null => false
  | .bool b => b
  | .num n => n != 0
  | .str s => !s.data.isEmpty
  | .arr xs => !xs.isEmpty
  | .obj kvs => !kvs.isEmpty

/-- Python `dict.get(key, default)`; a JSON object with duplicate keys keeps
the last occurrence's value, as `json.loads` does. -/
def dictGet (entries : List (String × PyJson)) (key : String) (dflt : PyJson) : PyJson :=
  match entries.reverse.find? (fun kv => kv.1 == key) with
  | some kv => kv.2
  | none => dflt

/-- Python `a or b`: `a` if truthy, else `b`. -/
def pyOr (a b : PyJson) : PyJson := if truthy a then a else b

/-- Iteration-order keys of a JSON object: first-occurrence order, duplicates
dropped. -/
def keysAux : List String → List (String × PyJson) → List String
  | _, [] => []
  | seen, (k, _) :: rest =>
    if k ∈ seen then keysAux seen rest else k :: keysAux (k :: seen) rest

/-- Python `for x in v`: lists yield their elements, strings yield their
1-character substrings, dicts yield their keys; other values raise
`TypeError`. -/
def pyIter : PyJson → Except PyErr (List PyJson)
  | .arr xs => .ok xs
  | .str s => .ok (s.data.map (fun c => .str ⟨[c]⟩))
  | .obj kvs => .ok ((keysAux [] kvs).map .str)
  | _ => .error .typeError

/-- `skill_name.lower()`: `AttributeError` on a non-string. -/
def lowerName : PyJson → Except PyErr String
  | .str s => .ok (pyLower s)
  | _ => .error .attributeError

/-- Left-to-right lowering of the iterated skill names, stopping at the first
non-string element exactly as the Python comprehension does. -/
def lowerAll : List PyJson → Except PyErr (List String)
  | [] => .ok []
  | j :: rest =>
    match lowerName j with
    | .error e => .error e
    | .ok s =>
      match lowerAll rest with
      | .error e => .error e
      | .ok ss => .ok (s :: ss)

/-- The case-insensitive hub lookup dict `skills_lookup =
{skill['name'].lower(): skill for skill in skills_hub}` (a later skill with
the same lowercased name overwrites an earlier one), queried with an
already-lowercased name. -/
def skillsLookupFind (hub : List SkillMeta) (lowered : String) : Option SkillMeta :=
  hub.reverse.find? (fun m => pyLower m.name == lowered)

/-- Escaping of one character inside a CPython string `repr` with the given
quote character. -/
def pyEscapeChar (quote : Char) (c : Char) : String :=
  if c == '\\' then "\\\\"
  else if c == quote then "\\" ++ ⟨[quote]⟩
  else if c == '\n' then "\\n"
  else if c == '\r' then "\\r"
  else if c == '\t' then "\\t"
  else ⟨[c]⟩

/-- CPython `repr` of a string: single-quoted unless the string contains a
single quote and no double quote; backslash, the quote, newline, carriage
return and tab are escaped (other control characters kept as is). -/
def pyReprStr (s : String) : String :=
  let sq : Char := Char.ofNat 39
  let quote : Char := if s.data.contains sq && !(s.data.contains '"') then '"' else sq
  ⟨[quote]⟩ ++ String.join (s.data.map (pyEscapeChar quote)) ++ ⟨[quote]⟩

mutual

/-- CPython `repr` of a JSON-decoded value. -/
def pyRepr : PyJson → String
  | .null => "None"
  | .bool true => "True"
  | .bool false => "False"
  | .num n => toString n
  | .str s => pyReprStr s
  | .arr xs => "[" ++ pyReprJoin xs ++ "]"
  | .obj kvs => "\x7b" ++ pyReprJoinKV kvs ++ "\x7d"

/-- `", ".join` of element `repr`s. -/
def pyReprJoin : List PyJson → String
  | [] => ""
  | [x] => pyRepr x
  | x :: y :: rest => pyRepr x ++ ", " ++ pyReprJoin (y :: rest)

/-- `", ".join` of `key: value` `repr`s. -/
def pyReprJoinKV : List (String × PyJson) → String
  | [] => ""
  | [kv] => pyReprStr kv.1 ++ ": " ++ pyRepr kv.2
  | kv :: kv2 :: rest =>
    pyReprStr kv.1 ++ ": " ++ pyRepr kv.2 ++ ", " ++ pyReprJoinKV (kv2 :: rest)

end

/-- Python `str()` of a JSON-decoded value: the string itself for strings,
`repr`-style rendering otherwise. -/
def pyStr : PyJson → String
  | .str s => s
  | .null => pyRepr .null
  | .bool b => pyRepr (.bool b)
  | .num n => pyRepr (.num n)
  | .arr xs => pyRepr (.arr xs)
  | .obj kvs => pyRepr (.obj kvs)

/-- Whether a JSON value is a string. -/
def isStrJson : PyJson → Bool
  | .str _ => true
  | _ => false

/-- Whether a JSON value is an object (a Python dict). -/
def isObjJson : PyJson → Bool
  | .obj _ => true
  | _ => false

/-- `parse_skills_from_json_response` from `skill_util.py`, applied to the
outcome of `json.loads` (`none` = `json.JSONDecodeError`) and the loaded hub.
The `except` tuple catches `JSONDecodeError`, `KeyError`, `TypeError` — not
`AttributeError`, which `data.get` raises on a non-dict payload and
`skill_name.lower()` raises on a non-string list entry. -/
def parse_skills_from_json_response (decoded : Option PyJson) (hub : List SkillMeta) :
    Except PyErr (List SkillMeta) :=
  match decoded with
  | none => .ok []
  | some (.obj entries) =>
    let skill_names :=
      pyOr (dictGet entries "skills" (.arr [])) (dictGet entries "Skills" (.arr []))
    if truthy skill_names = false then .ok []
    else
      match pyIter skill_names with
      | .error _ => .ok []
      | .ok elems =>
        match lowerAll elems with
        | .error e => .error e
        | .ok names => .ok (names.filterMap (skillsLookupFind hub))
  | some _ => .error .attributeError

/-- `parse_message_from_json_response` from `skill_util.py`: the raw string
together with the outcome of `json.loads` on it (`none` =
`json.JSONDecodeError`, caught, falling back to the stripped raw text).  On a
dict payload the first truthy of "message"/"Message"/"reasoning"/"response"
(default "") is stringified and stripped; on a non-dict payload `data.get`
raises `AttributeError`, which is not in the `except` tuple. -/
def parse_message_from_json_response (json_response : String) (decoded : Option PyJson) :
    Except PyErr String :=
  match decoded with
  | none => .ok (pyStrip json_response)
  | some (.obj entries) =>
    let message :=
      pyOr (dictGet entries "message" (.str ""))
        (pyOr (dictGet entries "Message" (.str ""))
          (pyOr (dictGet entries "reasoning" (.str ""))
            (dictGet entries "response" (.str ""))))
    .ok (pyStrip (pyStr message))
  | some _ => .error .attributeError

/-- Helper: lowering a list of string values succeeds elementwise. -/
theorem lowerAll_strs (names : List String) :
    lowerAll (names.map PyJson.str) = .ok (names.map pyLower) := by
  induction names with
  | nil => rfl
  | cons n rest ih => simp [lowerAll, lowerName, ih]

/-- Helper: a non-string element makes the lowering comprehension raise
`AttributeError`. -/
theorem lowerAll_error (elems : List PyJson)
    (h : ∃ j ∈ elems, isStrJson j = false) :
    lowerAll elems = .error .attributeError := by
  induction elems with
  | nil => obtain ⟨j, hj, -⟩ := h; cases hj
  | cons x xs ih =>
    obtain ⟨j, hj, hjs⟩ := h
    rcases List.mem_cons.mp hj with hjx | hjxs
    · subst hjx
      cases j with
      | str s => cases hjs
      | null => simp [lowerAll, lowerName]
      | bool b => simp [lowerAll, lowerName]
      | num n => simp [lowerAll, lowerName]
      | arr l => simp [lowerAll, lowerName]
      | obj l => simp [lowerAll, lowerName]
    · cases x with
      | str s => simp [lowerAll, lowerName, ih ⟨j, hjxs, hjs⟩]
      | null => simp [lowerAll, lowerName]
      | bool b => simp [lowerAll, lowerName]
      | num n => simp [lowerAll, lowerName]
      | arr l => simp [lowerAll, lowerName]
      | obj l => simp [lowerAll, lowerName]

/-- **C4 counterexample** — a well-formed structured reply whose payload is
not an object (the JSON array `[]`): `data.get` raises `AttributeError`,
which the `except` tuple does not catch, so the parser raises instead of
returning the empty selection the claim promises. -/
theorem parse_skills_counterexample :
    parse_skills_from_json_response (some (.arr [])) [] = .error .attributeError ∧
    (Except.error .attributeError : Except PyErr (List SkillMeta)) ≠ .ok [] := by
  exact ⟨rfl, fun h => Except.noConfusion h⟩

/-- **C4 (amended)** — recovery guarantees of the skill-selection reply
parser: a reply that fails JSON decoding, or decodes to an object whose
"skills"/"Skills" field is absent or falsy or a truthy non-iterable value
(TypeError, caught), yields the empty selection with no exception; an object
whose skills field is a list of strings yields the case-insensitive hub
matches in order, names not found being silently skipped.  But a reply
decoding to a non-object payload, or a skills list containing a non-string
entry, raises an uncaught `AttributeError`. -/
theorem parse_skills_recovery (hub : List SkillMeta) :
    (parse_skills_from_json_response none hub = .ok []) ∧
    (∀ entries : List (String × PyJson),
      truthy (pyOr (dictGet entries "skills" (.arr []))
          (dictGet entries "Skills" (.arr []))) = false →
      parse_skills_from_json_response (some (.obj entries)) hub = .ok []) ∧
    (∀ entries : List (String × PyJson),
      pyIter (pyOr (dictGet entries "skills" (.arr []))
          (dictGet entries "Skills" (.arr []))) = .error .typeError →
      parse_skills_from_json_response (some (.obj entries)) hub = .ok []) ∧
    (∀ (entries : List (String × PyJson)) (names : List String),
      pyOr (dictGet entries "skills" (.arr [])) (dictGet entries "Skills" (.arr [])) =
        .arr (names.map PyJson.str) →
      parse_skills_from_json_response (some (.obj entries)) hub =
        .ok ((names.map pyLower).filterMap (skillsLookupFind hub))) ∧
    (∀ v, isObjJson v = false →
      parse_skills_from_json_response (some v) hub = .error .attributeError) ∧
    (∀ (entries : List (String × PyJson)) (elems : List PyJson),
      pyOr (dictGet entries "skills" (.arr [])) (dictGet entries "Skills" (.arr [])) =
        .arr elems →
      (∃ j ∈ elems, isStrJson j = false) →
      parse_skills_from_json_response (some (.obj entries)) hub =
        .error .attributeError) := by
  refine ⟨rfl, ?_, ?_, ?_, ?_, ?_⟩
  · intro entries h
    simp [parse_skills_from_json_response, h]
  · intro entries h
    by_cases ht : truthy (pyOr (dictGet entries "skills" (.arr []))
        (dictGet entries "Skills" (.arr []))) = false
    · simp [parse_skills_from_json_response, ht]
    · simp only [Bool.not_eq_false] at ht
      simp [parse_skills_from_json_response, ht, h]
  · intro entries names h
    cases names with
    | nil =>
      simp [parse_skills_from_json_response, h, truthy]
    | cons n rest =>
      simp only [parse_skills_from_json_response, h, truthy, List.map_cons,
        List.isEmpty_cons, Bool.not_false, Bool.true_eq_false, if_false, pyIter]
      rw [← List.map_cons PyJson.str n rest, lowerAll_strs]
      rfl
  · intro v hv
    cases v with
    | obj entries => cases hv
    | null => rfl
    | bool b => rfl
    | num n => rfl
    | str s => rfl
    | arr l => rfl
  · intro entries elems h hex
    have ht : truthy (PyJson.arr elems) = true := by
      obtain ⟨j, hj, -⟩ := hex
      cases elems with
      | nil => cases hj
      | cons x xs => rfl
    simp only [parse_skills_from_json_response, h, ht, Bool.true_eq_false, if_false,
      pyIter, lowerAll_error elems hex]

/-- **C4 witness** — the amended guarantees at concrete inputs: a decode
failure yields `[]`; a dict with an empty skills list yields `[]`; a skills
list `["alpha", "missing"]` against a hub containing "Alpha" matches
case-insensitively and silently skips the unknown name; the array payload
`[1]` raises `AttributeError` on its non-string entry. -/
theorem parse_skills_recovery_witness :
    parse_skills_from_json_response none [⟨"Alpha", "d", "b"⟩] = .ok [] ∧
    parse_skills_from_json_response (some (.obj [("skills", .arr [])]))
      [⟨"Alpha", "d", "b"⟩] = .ok [] ∧
    parse_skills_from_json_response
        (some (.obj [("skills", .arr [.str "alpha", .str "missing"])]))
        [⟨"Alpha", "d", "b"⟩] =
      .ok [⟨"Alpha", "d", "b"⟩] ∧
    parse_skills_from_json_response
        (some (.obj [("skills", .arr [.num 1])])) [⟨"Alpha", "d", "b"⟩] =
      .error .attributeError := by
  refine ⟨(parse_skills_recovery [⟨"Alpha", "d", "b"⟩]).1, ?_, ?_, ?_⟩
  · exact (parse_skills_recovery [⟨"Alpha", "d", "b"⟩]).2.1
      [("skills", .arr [])] (by rfl)
  · have h := (parse_skills_recovery [⟨"Alpha", "d", "b"⟩]).2.2.2.1
      [("skills", .arr [.str "alpha", .str "missing"])] ["alpha", "missing"] (by rfl)
    exact h.trans (by rfl)
  · exact (parse_skills_recovery [⟨"Alpha", "d", "b"⟩]).2.2.2.2.2
      [("skills", .arr [.num 1])] [.num 1] (by rfl) ⟨.num 1, by simp, rfl⟩

/-- Helper: the empty string is falsy. -/
theorem truthy_str_empty : truthy (.str "") = false := rfl

/-- Helper: a non-empty string is truthy. -/
theorem truthy_str_of_ne {s : String} (h : s ≠ "") : truthy (.str s) = true := by
  cases s with
  | mk data =>
    cases data with
    | nil => exact absurd rfl h
    | cons c cs => rfl

/-- Helper: the `or`-chain over four string-valued fields picks the first
non-empty one. -/
theorem pyStr_or_chain (m mm r rp : String) :
    pyStr (pyOr (.str m) (pyOr (.str mm) (pyOr (.str r) (.str rp)))) =
      (if m ≠ "" then m else if mm ≠ "" then mm else if r ≠ "" then r else rp) := by
  by_cases hm : m = ""
  · subst hm
    by_cases hmm : mm = ""
    · subst hmm
      by_cases hr : r = ""
      · subst hr
        rfl
      · have htr := truthy_str_of_ne hr
        simp [pyOr, pyStr, htr, hr, truthy_str_empty]
    · have htr := truthy_str_of_ne hmm
      simp [pyOr, pyStr, htr, hmm, truthy_str_empty]
  · have htr := truthy_str_of_ne hm
    simp [pyOr, pyStr, htr, hm, truthy_str_empty]

/-- **C9 counterexample** — the fallback is not verbatim: an undecodable reply
with surrounding whitespace comes back stripped; and a reply decoding to a
non-object payload (the JSON array `[]`) raises an uncaught `AttributeError`
instead of producing an answer. -/
theorem parse_message_counterexample :
    parse_message_from_json_response "  plain text  " none = .ok "plain text" ∧
    (Except.ok "plain text" : Except PyErr String) ≠ .ok "  plain text  " ∧
    parse_message_from_json_response "[]" (some (.arr [])) = .error .attributeError := by
  refine ⟨rfl, ?_, rfl⟩
  intro h
  have h2 := Except.ok.inj h
  exact absurd h2 (by decide)

/-- **C9 (amended)** — answer-reply extraction: a reply that fails JSON
decoding falls back to the raw text stripped of surrounding whitespace (not
verbatim); a reply decoding to a JSON object whose four candidate fields are
string-valued (absent fields defaulting to "") yields the first non-empty of
"message", "Message", "reasoning", "response", in that priority order,
stripped ("" when all four are empty); a reply decoding to a non-object value
raises an uncaught `AttributeError`. -/
theorem parse_message_rules (raw : String) :
    parse_message_from_json_response raw none = .ok (pyStrip raw) ∧
    (∀ (entries : List (String × PyJson)) (m mm r rp : String),
      dictGet entries "message" (.str "") = .str m →
      dictGet entries "Message" (.str "") = .str mm →
      dictGet entries "reasoning" (.str "") = .str r →
      dictGet entries "response" (.str "") = .str rp →
      parse_message_from_json_response raw (some (.obj entries)) =
        .ok (pyStrip
          (if m ≠ "" then m else if mm ≠ "" then mm else if r ≠ "" then r else rp))) ∧
    (∀ v, isObjJson v = false →
      parse_message_from_json_response raw (some v) = .error .attributeError) := by
  refine ⟨rfl, ?_, ?_⟩
  · intro entries m mm r rp h1 h2 h3 h4
    simp only [parse_message_from_json_response, h1, h2, h3, h4, pyStr_or_chain]
  · intro v hv
    cases v with
    | obj entries => cases hv
    | null => rfl
    | bool b => rfl
    | num n => rfl
    | str s => rfl
    | arr l => rfl

/-- **C9 witness** — the amended rules at concrete inputs: an undecodable
reply with margins comes back stripped, and an object reply carrying only a
"reasoning" field yields that field's value. -/
theorem parse_message_rules_witness :
    parse_message_from_json_response "  answer  " none = .ok "answer" ∧
    parse_message_from_json_response "ignored"
        (some (.obj [("reasoning", .str "because")])) = .ok "because" := by
  refine ⟨(parse_message_rules "  answer  ").1.trans (by rfl), ?_⟩
  have h := (parse_message_rules "ignored").2.1 [("reasoning", .str "because")]
    "" "" "because" "" rfl rfl rfl rfl
  exact h.trans (by rfl)
